import Mathlib

/-!
Verification of the cocofest FES core: the stimulation-synchronized
discretization scheduler (`OcpFes.prepare_n_shooting`), the Ding 2003
frequency model dynamics (`DingModelFrequency`), and the identification
constraint-builder truncation window (`OcpFesId._build_constraints`).

Python floats are modelled by the exact rational values they denote;
CasADi's symbolic `exp` is modelled by an abstract function `ex : ℚ → ℚ`
(none of the verified properties depend on analytic facts about exp).
-/

namespace Cocofest

/-!
## Scheduler: `OcpFes.prepare_n_shooting` (src/cocofest/optimization/fes_ocp.py)

`Fraction(t).limit_denominator()` is CPython's `fractions.Fraction.limit_denominator`
with the default bound 10^6: the Stern-Brocot / continued-fraction walk below.
-/

/-- The state-passing loop of CPython's `Fraction.limit_denominator`
(`p0, q0, p1, q1, n, d`), run until the next convergent denominator `q2`
would exceed `maxDen`.  The loop variable `d` strictly decreases at each
step (`d' = n mod d < d`), so `fuel = d + 1` is always enough; the `d = 0`
branch is unreachable from a reduced fraction whose denominator exceeds
`maxDen` (the walk breaks at the final convergent at the latest, while
`d` is still positive). -/
def limitDenomLoop (maxDen : ℕ) : ℕ → ℤ → ℤ → ℤ → ℤ → ℤ → ℤ → ℤ × ℤ × ℤ × ℤ × ℤ × ℤ
  | 0, p0, q0, p1, q1, n, d => (p0, q0, p1, q1, n, d)
  | fuel + 1, p0, q0, p1, q1, n, d =>
      if d = 0 then (p0, q0, p1, q1, n, d)
      else
        let a := Int.fdiv n d
        let q2 := q0 + a * q1
        if (maxDen : ℤ) < q2 then (p0, q0, p1, q1, n, d)
        else limitDenomLoop maxDen fuel p1 q1 (p0 + a * p1) q2 d (n - a * d)

/-- CPython's `Fraction.limit_denominator(maxDen)`: the closest rational with
denominator at most `maxDen` (ties towards the lower continued-fraction bound). -/
def limit_denominator (x : ℚ) (maxDen : ℕ) : ℚ :=
  if x.den ≤ maxDen then x
  else
    match limitDenomLoop maxDen (x.den + 1) 0 1 1 0 x.num (x.den : ℤ) with
    | (p0, q0, p1, q1, _, _) =>
      let k : ℤ := Int.fdiv ((maxDen : ℤ) - q0) q1
      let bound1 : ℚ := ((p0 + k * p1 : ℤ) : ℚ) / ((q0 + k * q1 : ℤ) : ℚ)
      let bound2 : ℚ := (p1 : ℚ) / (q1 : ℚ)
      if |bound2 - x| ≤ |bound1 - x| then bound2 else bound1

/-- Embedding of `OcpFes.prepare_n_shooting(stim_time, final_time)`
(fes_ocp.py, lines 192-222).  Each float input is the exact rational it
denotes; `Fraction(v).limit_denominator()` is `limit_denominator v 10^6`.
The `n_shooting >= 1000` branch only prints a performance warning and does
not affect the returned value. -/
def prepare_n_shooting (stim_time : List ℚ) (final_time : ℚ) : ℕ :=
  let T_final := limit_denominator final_time 1000000
  stim_time.foldl
    (fun n_shooting t =>
      let t_frac := limit_denominator t 1000000
      let norm := t_frac / T_final
      let d := norm.den
      n_shooting * d / Nat.gcd n_shooting d)
    1

/-- The reduced denominator of stimulation time `t` normalized by the horizon
`T`, both first converted to reduced rationals bounded by `limit_denominator`. -/
def normDen (t T : ℚ) : ℕ :=
  (limit_denominator t 1000000 / limit_denominator T 1000000).den

lemma dvd_foldl_lcm_init (l : List ℕ) : ∀ a : ℕ, a ∣ l.foldl Nat.lcm a := by
  induction l with
  | nil => intro a; exact dvd_refl a
  | cons x l ih =>
      intro a
      exact dvd_trans (Nat.dvd_lcm_left a x) (ih (Nat.lcm a x))

lemma mem_dvd_foldl_lcm (l : List ℕ) : ∀ (a d : ℕ), d ∈ l → d ∣ l.foldl Nat.lcm a := by
  induction l with
  | nil => intro a d h; cases h
  | cons x l ih =>
      intro a d h
      rcases List.mem_cons.mp h with h | h
      · subst h
        exact dvd_trans (Nat.dvd_lcm_right a d) (dvd_foldl_lcm_init l (Nat.lcm a d))
      · exact ih (Nat.lcm a x) d h

lemma foldl_lcm_dvd (l : List ℕ) :
    ∀ (a m : ℕ), a ∣ m → (∀ d ∈ l, d ∣ m) → l.foldl Nat.lcm a ∣ m := by
  induction l with
  | nil => intro a m ha _; exact ha
  | cons x l ih =>
      intro a m ha h
      exact ih (Nat.lcm a x) m (Nat.lcm_dvd ha (h x (List.mem_cons_self x l)))
        (fun d hd => h d (List.mem_cons_of_mem x hd))

/-- C1: `prepare_n_shooting(stim_time, final_time)` is the least common multiple
of the reduced denominators `d_i` of the exact fractions `stim_time[i]/final_time`
(each time and the horizon first converted to a reduced rational via
`limit_denominator`), computed by folding `lcm(acc, d) = acc*d/gcd(acc, d)` from
accumulator 1; the lcm is characterized by the divisibility conjuncts, and the
empty stimulation list yields 1. -/
theorem prepare_n_shooting_is_lcm (stim_time : List ℚ) (final_time : ℚ)
    (hT : 0 < final_time) :
    prepare_n_shooting stim_time final_time
        = (stim_time.map (fun t => normDen t final_time)).foldl Nat.lcm 1
      ∧ (∀ t ∈ stim_time, normDen t final_time ∣ prepare_n_shooting stim_time final_time)
      ∧ (∀ m : ℕ, (∀ t ∈ stim_time, normDen t final_time ∣ m) →
          prepare_n_shooting stim_time final_time ∣ m)
      ∧ prepare_n_shooting [] final_time = 1 := by
  have hfold : prepare_n_shooting stim_time final_time
      = (stim_time.map (fun t => normDen t final_time)).foldl Nat.lcm 1 := by
    rw [List.foldl_map]
    rfl
  refine ⟨hfold, ?_, ?_, rfl⟩
  · intro t ht
    rw [hfold]
    exact mem_dvd_foldl_lcm _ 1 _ (List.mem_map_of_mem _ ht)
  · intro m hm
    rw [hfold]
    refine foldl_lcm_dvd _ 1 m (one_dvd m) ?_
    intro d hd
    rcases List.mem_map.mp hd with ⟨t, ht, rfl⟩
    exact hm t ht

/-- Witness for C1 at `stim_time = [1/2]`, `final_time = 1`. -/
theorem prepare_n_shooting_is_lcm_witness :
    (0 : ℚ) < 1
    ∧ (prepare_n_shooting [1/2] 1
          = ([(1 : ℚ)/2].map (fun t => normDen t 1)).foldl Nat.lcm 1
        ∧ (∀ t ∈ [(1 : ℚ)/2], normDen t 1 ∣ prepare_n_shooting [1/2] 1)
        ∧ (∀ m : ℕ, (∀ t ∈ [(1 : ℚ)/2], normDen t 1 ∣ m) → prepare_n_shooting [1/2] 1 ∣ m)
        ∧ prepare_n_shooting [] 1 = 1) :=
  ⟨by norm_num, prepare_n_shooting_is_lcm [1/2] 1 (by norm_num)⟩

unseal Rat.mul Rat.inv Rat.add Rat.sub Rat.ofScientific in
/-- C5: on the IEEE-754 double values of the stimulation list `[0.0, 1/3, 2/3]`
(`float(1/3) = 6004799503160661/2^54`, `float(2/3) = 6004799503160661/2^53`)
with horizon `1.0`, `prepare_n_shooting` returns exactly 3: the bounded-denominator
reduction recovers the exact fractions 1/3 and 2/3. -/
theorem prepare_n_shooting_one_third_exact :
    prepare_n_shooting
        [0, 6004799503160661 / 18014398509481984, 6004799503160661 / 9007199254740992] 1
      = 3 := by
  decide

unseal Rat.mul Rat.inv Rat.add Rat.sub Rat.ofScientific in
/-- Counterexample to C6: `prepare_n_shooting` contains no validation and no
raise path at all; on the stimulation list `[2]` with horizon `1` (a time
strictly outside `[0, 1]`) it completes normally and returns the node count 1
instead of raising a scheduling error. -/
theorem prepare_n_shooting_out_of_range_returns :
    prepare_n_shooting [2] 1 = 1 := by
  decide

/-- C6 amended: for a stimulation list containing a time strictly outside
`[0, horizon]`, `prepare_n_shooting` raises no error; it still returns the
lcm fold of the normalized denominators, exactly as for in-range inputs. -/
theorem prepare_n_shooting_no_range_check (stim_time : List ℚ) (final_time : ℚ)
    (h : ∃ t ∈ stim_time, t < 0 ∨ final_time < t) :
    prepare_n_shooting stim_time final_time
      = (stim_time.map (fun t => normDen t final_time)).foldl Nat.lcm 1 := by
  rw [List.foldl_map]
  rfl

/-- Witness for the amended C6 at `stim_time = [2]`, `final_time = 1`. -/
theorem prepare_n_shooting_no_range_check_witness :
    (∃ t ∈ [(2 : ℚ)], t < 0 ∨ (1 : ℚ) < t)
    ∧ prepare_n_shooting [2] 1 = ([(2 : ℚ)].map (fun t => normDen t 1)).foldl Nat.lcm 1 :=
  ⟨⟨2, List.mem_singleton_self 2, Or.inr (by norm_num)⟩,
    prepare_n_shooting_no_range_check [2] 1 ⟨2, List.mem_singleton_self 2, Or.inr (by norm_num)⟩⟩

/-!
## Ding 2003 frequency model (src/cocofest/models/ding2003.py)

States and parameters are rationals; the CasADi `exp` primitive is an
abstract `ex : ℚ → ℚ` passed to each function (the verified properties are
algebraic and hold for any `ex`).  CasADi's `if_else(c, 1, 0)` on scalar
rationals is the decidable indicator.
-/

/-- The scalar parameters and flags of `DingModelFrequency.__init__`. -/
structure DingModelFrequency where
  tauc : ℚ
  r0_km_relationship : ℚ
  a_rest : ℚ
  tau1_rest : ℚ
  tau2 : ℚ
  km_rest : ℚ
  is_approximated : Bool
  sum_stim_truncation : Option ℕ

/-- The default parameter values of `DingModelFrequency.__init__`
(decimal literals read as exact rationals). -/
def dingDefault : DingModelFrequency where
  tauc := 20 / 1000
  r0_km_relationship := 104 / 100
  a_rest := 3009
  tau1_rest := 50957 / 1000000
  tau2 := 60 / 1000
  km_rest := 103 / 1000
  is_approximated := false
  sum_stim_truncation := none

/-- `DingModelFrequency.get_r0`. -/
def get_r0 (m : DingModelFrequency) (km : ℚ) : ℚ :=
  km + m.r0_km_relationship

/-- `DingModelFrequency.get_lambda_i`: `[1 for _ in range(nb_stim)]`. -/
def get_lambda_i (nb_stim : ℕ) (pulse_intensity : ℚ) : List ℚ :=
  List.replicate nb_stim 1

/-- `DingModelFrequency.exp_time_fun`: `exp(-(t - t_stim_i) / tauc)`. -/
def exp_time_fun (m : DingModelFrequency) (ex : ℚ → ℚ) (t t_stim_i : ℚ) : ℚ :=
  ex ((-(t - t_stim_i)) / m.tauc)

/-- `DingModelFrequency.ri_fun`: `1 + (r0 - 1) * exp(-time_between_stim / tauc)`. -/
def ri_fun (m : DingModelFrequency) (ex : ℚ → ℚ) (r0 time_between_stim : ℚ) : ℚ :=
  1 + (r0 - 1) * ex ((-time_between_stim) / m.tauc)

/-- Python's `t_stim_prev[i - 1]` as read inside `cn_sum_fun`: for `i = 0`
this is the negative index `-1`, i.e. the last element of the list. -/
def pyPrevStim (l : List ℚ) (i : ℕ) : ℚ :=
  if i = 0 then l.getD (l.length - 1) 0 else l.getD (i - 1) 0

/-- `DingModelFrequency.cn_sum_fun` (ding2003.py, lines 227-250): the loop
accumulating `ri * exp_time * lambda_i[i] * coefficient` over the stimulation
history, where `coefficient` is `1` in approximated mode and
`if_else(t_stim_prev[i] <= t, 1, 0)` otherwise. -/
def cn_sum_fun (m : DingModelFrequency) (ex : ℚ → ℚ) (r0 t : ℚ)
    (t_stim_prev lambda_i : List ℚ) : ℚ :=
  (List.range t_stim_prev.length).foldl
    (fun sum_multiplier i =>
      let previous_phase_time := t_stim_prev.getD i 0 - pyPrevStim t_stim_prev i
      let ri : ℚ := if i = 0 then 1 else ri_fun m ex r0 previous_phase_time
      let exp_time := exp_time_fun m ex t (t_stim_prev.getD i 0)
      let coefficient : ℚ :=
        if m.is_approximated then 1 else if t_stim_prev.getD i 0 ≤ t then 1 else 0
      sum_multiplier + ri * exp_time * lambda_i.getD i 0 * coefficient)
    0

/-- `cn_sum_fun` with the value read as the first event's gap
(`t_stim_prev[0] - t_stim_prev[-1]`) replaced by an arbitrary `g`; used to
state that this read never affects the result (claim C10). -/
def cn_sum_fun_gap (m : DingModelFrequency) (ex : ℚ → ℚ) (r0 t : ℚ)
    (t_stim_prev lambda_i : List ℚ) (g : ℚ) : ℚ :=
  (List.range t_stim_prev.length).foldl
    (fun sum_multiplier i =>
      let previous_phase_time :=
        if i = 0 then g else t_stim_prev.getD i 0 - t_stim_prev.getD (i - 1) 0
      let ri : ℚ := if i = 0 then 1 else ri_fun m ex r0 previous_phase_time
      let exp_time := exp_time_fun m ex t (t_stim_prev.getD i 0)
      let coefficient : ℚ :=
        if m.is_approximated then 1 else if t_stim_prev.getD i 0 ≤ t then 1 else 0
      sum_multiplier + ri * exp_time * lambda_i.getD i 0 * coefficient)
    0

/-- `DingModelFrequency.cn_dot_fun`: `(1 / tauc) * cn_sum - (cn / tauc)`. -/
def cn_dot_fun (m : DingModelFrequency) (cn cn_sum : ℚ) : ℚ :=
  (1 / m.tauc) * cn_sum - (cn / m.tauc)

/-- `DingModelFrequency.calculate_cn_dot` (ding2003.py, lines 266-273). -/
def calculate_cn_dot (m : DingModelFrequency) (ex : ℚ → ℚ)
    (cn cn_sum t : ℚ) (t_stim_prev : List ℚ) (pulse_intensity : ℚ) : ℚ :=
  if m.is_approximated then
    cn_dot_fun m cn cn_sum
  else
    cn_dot_fun m cn
      (cn_sum_fun m ex (get_r0 m m.km_rest) t t_stim_prev
        (get_lambda_i t_stim_prev.length pulse_intensity))

/-- `DingModelFrequency.f_dot_fun` (ding2003.py, lines 275-311). -/
def f_dot_fun (m : DingModelFrequency)
    (cn f a tau1 km force_length_relationship force_velocity_relationship : ℚ) : ℚ :=
  (a * (cn / (km + cn)) - (f / (tau1 + m.tau2 * (cn / (km + cn)))))
    * force_length_relationship * force_velocity_relationship

/-- `DingModelFrequency.system_dynamics` (ding2003.py, lines 151-195):
`vertcat(cn_dot, f_dot)` with `f_dot` evaluated at the rest constants
`a_rest, tau1_rest, km_rest` (and `calculate_cn_dot` at the default
`pulse_intensity = 1`). -/
def system_dynamics (m : DingModelFrequency) (ex : ℚ → ℚ)
    (cn f t : ℚ) (t_stim_prev : List ℚ) (cn_sum : ℚ)
    (force_length_relationship force_velocity_relationship : ℚ) : ℚ × ℚ :=
  (calculate_cn_dot m ex cn cn_sum t t_stim_prev 1,
   f_dot_fun m cn f m.a_rest m.tau1_rest m.km_rest
     force_length_relationship force_velocity_relationship)

/-- The spec's exact-mode forcing term, written from the spec sentence for
claim C3: `Σ_i R_i · exp(−(t − t_i)/tauc) · λ_i · 1[t_i ≤ t]` with `R_0 = 1`,
`R_i = 1 + (R0−1)·exp(−Δt_i/tauc)` for later events, and the indicator
applied only in non-approximated mode. -/
def cnSumFormula (m : DingModelFrequency) (ex : ℚ → ℚ) (r0 t : ℚ)
    (l lam : List ℚ) : ℚ :=
  ∑ i in Finset.range l.length,
    (if i = 0 then 1 else 1 + (r0 - 1) * ex ((-(l.getD i 0 - l.getD (i - 1) 0)) / m.tauc))
      * ex ((-(t - l.getD i 0)) / m.tauc)
      * lam.getD i 0
      * (if m.is_approximated then 1 else if l.getD i 0 ≤ t then 1 else 0)

lemma foldl_add_eq_sum (g : ℚ → ℕ → ℚ) (f : ℕ → ℚ) (hg : ∀ a i, g a i = a + f i) :
    ∀ (n : ℕ) (a : ℚ), (List.range n).foldl g a = a + ∑ i in Finset.range n, f i := by
  intro n
  induction n with
  | zero => intro a; simp
  | succ n ih =>
      intro a
      rw [List.range_succ, List.foldl_append, List.foldl_cons, List.foldl_nil, ih, hg,
        Finset.sum_range_succ, add_assoc]

lemma cn_sum_fun_gap_eq_formula (m : DingModelFrequency) (ex : ℚ → ℚ) (r0 t g : ℚ)
    (l lam : List ℚ) :
    cn_sum_fun_gap m ex r0 t l lam g = cnSumFormula m ex r0 t l lam := by
  unfold cn_sum_fun_gap cnSumFormula
  rw [foldl_add_eq_sum _ _ (fun a i => rfl), zero_add]
  refine Finset.sum_congr rfl ?_
  intro i _
  by_cases hi : i = 0
  · subst hi; simp [ri_fun, exp_time_fun]
  · simp [hi, ri_fun, exp_time_fun]

lemma cn_sum_fun_eq_gap (m : DingModelFrequency) (ex : ℚ → ℚ) (r0 t : ℚ)
    (l lam : List ℚ) :
    cn_sum_fun m ex r0 t l lam
      = cn_sum_fun_gap m ex r0 t l lam (l.getD 0 0 - l.getD (l.length - 1) 0) := by
  unfold cn_sum_fun cn_sum_fun_gap
  rw [foldl_add_eq_sum _ _ (fun a i => rfl), foldl_add_eq_sum _ _ (fun a i => rfl)]
  refine congrArg _ (Finset.sum_congr rfl ?_)
  intro i _
  by_cases hi : i = 0
  · subst hi; simp [pyPrevStim]
  · simp [pyPrevStim, hi]

lemma cn_sum_fun_eq_formula (m : DingModelFrequency) (ex : ℚ → ℚ) (r0 t : ℚ)
    (l lam : List ℚ) :
    cn_sum_fun m ex r0 t l lam = cnSumFormula m ex r0 t l lam := by
  rw [cn_sum_fun_eq_gap, cn_sum_fun_gap_eq_formula]

/-- C2: the Cn derivative computed in approximated mode with the auxiliary
control `cn_sum` set to the exact-mode summation equals the Cn derivative
computed in exact mode on the same inputs, and both equal
`cn_sum/tauc − Cn/tauc`. -/
theorem approximated_exact_cn_dot_consistent (m : DingModelFrequency)
    (ex : ℚ → ℚ) (cn t cn_sum_ctrl pulse_intensity : ℚ) (t_stim_prev : List ℚ) :
    calculate_cn_dot { m with is_approximated := true } ex cn
        (cn_sum_fun { m with is_approximated := false } ex (get_r0 m m.km_rest) t
          t_stim_prev (get_lambda_i t_stim_prev.length pulse_intensity))
        t t_stim_prev pulse_intensity
      = calculate_cn_dot { m with is_approximated := false } ex cn cn_sum_ctrl
          t t_stim_prev pulse_intensity
    ∧ calculate_cn_dot { m with is_approximated := true } ex cn
        (cn_sum_fun { m with is_approximated := false } ex (get_r0 m m.km_rest) t
          t_stim_prev (get_lambda_i t_stim_prev.length pulse_intensity))
        t t_stim_prev pulse_intensity
      = cn_sum_fun { m with is_approximated := false } ex (get_r0 m m.km_rest) t
          t_stim_prev (get_lambda_i t_stim_prev.length pulse_intensity) / m.tauc
        - cn / m.tauc := by
  constructor
  · rfl
  · show cn_dot_fun m cn _ = _
    unfold cn_dot_fun
    ring

/-- C3: for a non-empty stimulation history, the exact-mode forcing term
`cn_sum_fun` is the spec's sum `Σ_i R_i · exp(−(t − t_i)/tauc) · λ_i · 1[t_i ≤ t]`
(`cnSumFormula`, with `R_0 = 1`, the gap-based `R_i` for later events, and the
indicator only in non-approximated mode), and `λ_i` is identically 1 for the
frequency-only model. -/
theorem cn_sum_fun_matches_spec_sum (m : DingModelFrequency) (ex : ℚ → ℚ)
    (r0 t : ℚ) (t_stim_prev lambda_i : List ℚ) (hne : t_stim_prev ≠ []) :
    cn_sum_fun m ex r0 t t_stim_prev lambda_i
        = cnSumFormula m ex r0 t t_stim_prev lambda_i
      ∧ ∀ (n : ℕ) (p : ℚ), get_lambda_i n p = List.replicate n 1 :=
  ⟨cn_sum_fun_eq_formula m ex r0 t t_stim_prev lambda_i, fun _ _ => rfl⟩

/-- Witness for C3 at the default model, `ex = id`, history `[0]`. -/
theorem cn_sum_fun_matches_spec_sum_witness :
    ([(0 : ℚ)] ≠ ([] : List ℚ))
    ∧ (cn_sum_fun dingDefault (fun q => q) 1 2 [0] [1]
          = cnSumFormula dingDefault (fun q => q) 1 2 [0] [1]
        ∧ ∀ (n : ℕ) (p : ℚ), get_lambda_i n p = List.replicate n 1) :=
  ⟨by simp, cn_sum_fun_matches_spec_sum dingDefault (fun q => q) 1 2 [0] [1] (by simp)⟩

/-- C4: `f_dot_fun` is exactly
`[A·(Cn/(Km+Cn)) − F/(Tau1 + Tau2·(Cn/(Km+Cn)))] · force_length · force_velocity`
with `Tau2` the model constant, and the frequency-only `system_dynamics`
evaluates it at the rest constants `a_rest, tau1_rest, km_rest`. -/
theorem f_dot_fun_formula (m : DingModelFrequency) (ex : ℚ → ℚ)
    (cn f t cn_sum a tau1 km flr fvr : ℚ) (t_stim_prev : List ℚ) :
    f_dot_fun m cn f a tau1 km flr fvr
        = (a * (cn / (km + cn)) - f / (tau1 + m.tau2 * (cn / (km + cn)))) * flr * fvr
      ∧ (system_dynamics m ex cn f t t_stim_prev cn_sum flr fvr).2
        = f_dot_fun m cn f m.a_rest m.tau1_rest m.km_rest flr fvr :=
  ⟨rfl, rfl⟩

unseal Rat.mul Rat.inv Rat.add Rat.sub Rat.ofScientific in
/-- Counterexample to C7: `system_dynamics` contains no input validation and no
raise path; with negative time constants (`tauc = -1/50`, `tau1_rest = -1/10`)
it still returns the algebraic derivative (here `Cn_dot = 50`) instead of
raising a typed error.  (Non-finite values do not exist in the exact rational
semantics; the source likewise has no check for them.) -/
theorem system_dynamics_negative_constants_return :
    (system_dynamics
        { dingDefault with tauc := -(1/50), tau1_rest := -(1/10) }
        (fun q => q) 1 2 0 [] 5 1 1).1
      = 50 := by
  decide

/-- C7 amended: `system_dynamics` performs no validation of its inputs; even
when the model's time constants are negative it returns the pair
`(calculate_cn_dot …, f_dot_fun …)` computed algebraically, raising nothing. -/
theorem system_dynamics_no_validation (m : DingModelFrequency) (ex : ℚ → ℚ)
    (cn f t cn_sum flr fvr : ℚ) (t_stim_prev : List ℚ)
    (h : m.tauc < 0 ∨ m.tau1_rest < 0) :
    system_dynamics m ex cn f t t_stim_prev cn_sum flr fvr
      = (calculate_cn_dot m ex cn cn_sum t t_stim_prev 1,
         f_dot_fun m cn f m.a_rest m.tau1_rest m.km_rest flr fvr) :=
  rfl

unseal Rat.mul Rat.inv Rat.add Rat.sub Rat.ofScientific in
/-- Witness for the amended C7 at the default model with `tauc = -1/50`. -/
theorem system_dynamics_no_validation_witness :
    (({ dingDefault with tauc := -(1/50) } : DingModelFrequency).tauc < 0
      ∨ ({ dingDefault with tauc := -(1/50) } : DingModelFrequency).tau1_rest < 0)
    ∧ system_dynamics { dingDefault with tauc := -(1/50) } (fun q => q) 1 2 0 [] 5 1 1
      = (calculate_cn_dot { dingDefault with tauc := -(1/50) } (fun q => q) 1 5 0 [] 1,
         f_dot_fun { dingDefault with tauc := -(1/50) } 1 2
           dingDefault.a_rest dingDefault.tau1_rest dingDefault.km_rest 1 1) :=
  ⟨Or.inl (by decide),
    system_dynamics_no_validation { dingDefault with tauc := -(1/50) } (fun q => q)
      1 2 0 5 1 1 [] (Or.inl (by decide))⟩

/-- C10: with an empty stimulation history `cn_sum_fun` returns 0, so exact-mode
`calculate_cn_dot` is the pure decay `−Cn/tauc`; and the gap value read at the
first event (Python's `t_stim_prev[-1]`, the last element) never affects the
result, since `R_0 = 1`. -/
theorem empty_history_and_first_gap_unused (m : DingModelFrequency) (ex : ℚ → ℚ)
    (cn cn_sum t r0 pulse_intensity g g' : ℚ) (t_stim_prev lambda_i : List ℚ)
    (hm : m.is_approximated = false) :
    cn_sum_fun m ex r0 t [] lambda_i = 0
      ∧ calculate_cn_dot m ex cn cn_sum t [] pulse_intensity = -(cn / m.tauc)
      ∧ cn_sum_fun_gap m ex r0 t t_stim_prev lambda_i g
        = cn_sum_fun_gap m ex r0 t t_stim_prev lambda_i g'
      ∧ cn_sum_fun m ex r0 t t_stim_prev lambda_i
        = cn_sum_fun_gap m ex r0 t t_stim_prev lambda_i
            (t_stim_prev.getD 0 0 - t_stim_prev.getD (t_stim_prev.length - 1) 0) := by
  refine ⟨rfl, ?_, ?_, cn_sum_fun_eq_gap m ex r0 t t_stim_prev lambda_i⟩
  · unfold calculate_cn_dot
    rw [hm]
    show cn_dot_fun m cn (cn_sum_fun m ex _ t [] _) = _
    show cn_dot_fun m cn 0 = _
    unfold cn_dot_fun
    ring
  · rw [cn_sum_fun_gap_eq_formula, cn_sum_fun_gap_eq_formula]

/-- Witness for C10 at the default (exact-mode) model. -/
theorem empty_history_and_first_gap_unused_witness :
    dingDefault.is_approximated = false
    ∧ (cn_sum_fun dingDefault (fun q => q) 1 2 [] [] = 0
        ∧ calculate_cn_dot dingDefault (fun q => q) 3 7 2 [] 1 = -(3 / dingDefault.tauc)
        ∧ cn_sum_fun_gap dingDefault (fun q => q) 1 2 [0, 1] [1, 1] 5
          = cn_sum_fun_gap dingDefault (fun q => q) 1 2 [0, 1] [1, 1] 9
        ∧ cn_sum_fun dingDefault (fun q => q) 1 2 [0, 1] [1, 1]
          = cn_sum_fun_gap dingDefault (fun q => q) 1 2 [0, 1] [1, 1]
              (([0, 1] : List ℚ).getD 0 0 - ([0, 1] : List ℚ).getD (([0, 1] : List ℚ).length - 1) 0)) :=
  ⟨rfl, empty_history_and_first_gap_unused dingDefault (fun q => q) 3 7 2 1 1 5 9 [0, 1] [1, 1] rfl⟩

/-!
## Identification constraint builder: `OcpFesId._build_constraints`
(src/cocofest/optimization/fes_identification_ocp.py, lines 395-435)

`additional_nodes` is 1 when the control type is `LINEAR_CONTINUOUS` and 0
otherwise; it is carried as a plain argument here.
-/

/-- `np.linspace(0, final_time, n_shooting + 1)`: the grid node times
`t_j = j * final_time / n_shooting`. -/
def time_vector (final_time : ℚ) (n_shooting : ℕ) : List ℚ :=
  (List.range (n_shooting + 1)).map (fun (j : ℕ) => (j : ℚ) * final_time / (n_shooting : ℚ))

/-- `stim_at_node`: for each stimulation time, the first grid-node index whose
time is at or after it (`np.where(stim_time[i] <= time_vector)[0][0]`).  When no
node qualifies (a stimulation beyond the last node) numpy raises an IndexError;
`findIdx` then returns the list length, an index no loop node reaches. -/
def stim_at_node (stim_time tv : List ℚ) : List ℕ :=
  stim_time.map (fun s => tv.findIdx (fun x => decide (s ≤ x)))

/-- Python truthiness of `model._sum_stim_truncation`: `None` and `0` both fall
back to the sentinel `10000000`. -/
def maxStimToKeep : Option ℕ → ℕ
  | some k => if k = 0 then 10000000 else k
  | none => 10000000

/-- The `index_inf` / `index_sup` loop of `OcpFesId._build_constraints`,
returning the `(index_inf, index_sup)` pair attached to each node's
constraint (`stim_time[index_inf:index_sup]` and
`stim_index = list(range(index_inf, index_sup))`). -/
def build_windows_go (max_stim_to_keep : ℕ) (san : List ℕ) :
    List ℕ → ℕ → ℕ → List (ℕ × ℕ)
  | [], _, _ => []
  | i :: rest, index_inf, index_sup =>
      if i ∈ san then
        let index_sup2 := index_sup + 1
        let index_inf2 :=
          if max_stim_to_keep ≤ index_sup2 then index_sup2 - max_stim_to_keep else index_inf
        (index_inf2, index_sup2) ::
          build_windows_go max_stim_to_keep san rest index_inf2 index_sup2
      else
        (index_inf, index_sup) :: build_windows_go max_stim_to_keep san rest index_inf index_sup

/-- The per-node `(index_inf, index_sup)` windows built by
`OcpFesId._build_constraints`. -/
def build_constraints_windows (sum_stim_truncation : Option ℕ) (n_shooting : ℕ)
    (final_time : ℚ) (stim_time : List ℚ) (additional_nodes : ℕ) : List (ℕ × ℕ) :=
  build_windows_go (maxStimToKeep sum_stim_truncation)
    (stim_at_node stim_time (time_vector final_time n_shooting))
    (List.range (n_shooting + additional_nodes)) 0 0

/-- The number of stimulation events assigned to a node strictly before `a`. -/
def stimCountBefore (san : List ℕ) (a : ℕ) : ℕ :=
  san.countP (fun v => decide (v < a))

lemma build_windows_go_cons_mem (K : ℕ) (san : List ℕ) (i : ℕ) (rest : List ℕ)
    (index_inf index_sup : ℕ) (h : i ∈ san) :
    build_windows_go K san (i :: rest) index_inf index_sup
      = ((if K ≤ index_sup + 1 then index_sup + 1 - K else index_inf), index_sup + 1)
        :: build_windows_go K san rest
            (if K ≤ index_sup + 1 then index_sup + 1 - K else index_inf) (index_sup + 1) := by
  simp [build_windows_go, h]

lemma build_windows_go_cons_not_mem (K : ℕ) (san : List ℕ) (i : ℕ) (rest : List ℕ)
    (index_inf index_sup : ℕ) (h : i ∉ san) :
    build_windows_go K san (i :: rest) index_inf index_sup
      = (index_inf, index_sup) :: build_windows_go K san rest index_inf index_sup := by
  simp [build_windows_go, h]

lemma stimCountBefore_succ (san : List ℕ) (hnd : san.Nodup) (a : ℕ) :
    stimCountBefore san (a + 1)
      = stimCountBefore san a + (if a ∈ san then 1 else 0) := by
  induction san with
  | nil => simp [stimCountBefore]
  | cons x xs ih =>
      rcases List.nodup_cons.mp hnd with ⟨hnx, hx⟩
      unfold stimCountBefore at ih ⊢
      rw [List.countP_cons, List.countP_cons, ih hx]
      by_cases hax : a = x
      · subst hax
        simp [hnx, Nat.lt_irrefl]
      · have hmm : (a ∈ x :: xs) ↔ (a ∈ xs) := by
          rw [List.mem_cons]
          exact or_iff_right hax
        have hlt : (x < a + 1) ↔ (x < a) := by omega
        simp only [decide_eq_true_eq, hmm, hlt]
        ring

lemma build_windows_go_characterization (K : ℕ) (san : List ℕ) (hnd : san.Nodup) :
    ∀ (len a : ℕ),
      build_windows_go K san (List.range' a len)
          (stimCountBefore san a - min K (stimCountBefore san a))
          (stimCountBefore san a)
        = (List.range' a len).map
            (fun i =>
              (stimCountBefore san (i + 1) - min K (stimCountBefore san (i + 1)),
               stimCountBefore san (i + 1))) := by
  intro len
  induction len with
  | zero => intro a; rfl
  | succ len ih =>
      intro a
      rw [List.range'_succ, List.map_cons]
      by_cases hmem : a ∈ san
      · have hc : stimCountBefore san (a + 1) = stimCountBefore san a + 1 := by
          rw [stimCountBefore_succ san hnd a, if_pos hmem]
        rw [build_windows_go_cons_mem K san a _ _ _ hmem]
        have hinf : (if K ≤ stimCountBefore san a + 1
              then stimCountBefore san a + 1 - K
              else stimCountBefore san a - min K (stimCountBefore san a))
            = stimCountBefore san (a + 1) - min K (stimCountBefore san (a + 1)) := by
          rw [hc]; split_ifs <;> omega
        rw [hinf, ← hc, ih (a + 1)]
      · have hc : stimCountBefore san (a + 1) = stimCountBefore san a := by
          rw [stimCountBefore_succ san hnd a, if_neg hmem]
          omega
        rw [build_windows_go_cons_not_mem K san a _ _ _ hmem, ← hc, ih (a + 1)]



lemma stimCountBefore_zero (san : List ℕ) : stimCountBefore san 0 = 0 := by
  simp [stimCountBefore]

lemma build_windows_go_getD (K : ℕ) (san : List ℕ) (hnd : san.Nodup) (n i : ℕ)
    (hi : i < n) :
    (build_windows_go K san (List.range n) 0 0).getD i (0, 0)
      = (stimCountBefore san (i + 1) - min K (stimCountBefore san (i + 1)),
         stimCountBefore san (i + 1)) := by
  have h := build_windows_go_characterization K san hnd n 0
  rw [stimCountBefore_zero] at h
  norm_num at h
  rw [List.range_eq_range', h, List.getD_eq_getElem?_getD, List.getElem?_map,
    List.getElem?_range' 0 1 (by simpa using hi)]
  simp

lemma time_vector_getD (T : ℚ) (n j : ℕ) (hj : j < n + 1) :
    (time_vector T n).getD j 0 = (j : ℚ) * T / (n : ℚ) := by
  unfold time_vector
  rw [List.getD_eq_getElem?_getD, List.getElem?_map, List.getElem?_range (by simpa using hj)]
  rfl

lemma node_time_mono (T : ℚ) (hT : 0 ≤ T) (n j k : ℕ) (hjk : j ≤ k) :
    (j : ℚ) * T / (n : ℚ) ≤ (k : ℚ) * T / (n : ℚ) := by
  rw [mul_div_assoc, mul_div_assoc]
  have hq : (j : ℚ) ≤ (k : ℚ) := by exact_mod_cast hjk
  exact mul_le_mul_of_nonneg_right hq (div_nonneg hT (Nat.cast_nonneg n))

lemma le_findIdx_iff_node (T : ℚ) (hT : 0 ≤ T) (n : ℕ) (s : ℚ) (i : ℕ) (hi : i < n + 1) :
    ((time_vector T n).findIdx (fun x => decide (s ≤ x)) ≤ i)
      ↔ (s ≤ (i : ℚ) * T / (n : ℚ)) := by
  have hlen : (time_vector T n).length = n + 1 := by simp [time_vector]
  constructor
  · intro h
    have hfl : (time_vector T n).findIdx (fun x => decide (s ≤ x))
        < (time_vector T n).length := by
      omega
    have hp := List.findIdx_getElem (w := hfl)
    simp only [decide_eq_true_eq] at hp
    have hval : (time_vector T n)[(time_vector T n).findIdx (fun x => decide (s ≤ x))]
        = ((time_vector T n).findIdx (fun x => decide (s ≤ x)) : ℚ) * T / (n : ℚ) := by
      rw [← time_vector_getD T n _ (by omega), List.getD_eq_getElem?_getD,
        List.getElem?_eq_getElem hfl, Option.getD_some]
    rw [hval] at hp
    exact le_trans hp (node_time_mono T hT n _ i h)
  · intro h
    by_contra hlt
    push_neg at hlt
    have hi' : i < (time_vector T n).length := by omega
    have hfalse := List.not_of_lt_findIdx hlt
    have hval : (time_vector T n)[i] = (i : ℚ) * T / (n : ℚ) := by
      rw [← time_vector_getD T n i hi, List.getD_eq_getElem?_getD,
        List.getElem?_eq_getElem hi', Option.getD_some]
    rw [hval] at hfalse
    exact (of_decide_eq_false hfalse) h

/-- The number of stimulation events whose time is at or before grid node `i`
(node time `i * final_time / n_shooting`). -/
def eventsAtOrBeforeNode (stim_time : List ℚ) (final_time : ℚ) (n_shooting i : ℕ) : ℕ :=
  stim_time.countP (fun s => decide (s ≤ (i : ℚ) * final_time / (n_shooting : ℚ)))

lemma stimCount_eq_events (stim_time : List ℚ) (T : ℚ) (hT : 0 ≤ T) (n i : ℕ)
    (hi : i < n + 1) :
    stimCountBefore (stim_at_node stim_time (time_vector T n)) (i + 1)
      = eventsAtOrBeforeNode stim_time T n i := by
  unfold stimCountBefore stim_at_node eventsAtOrBeforeNode
  rw [List.countP_map]
  apply List.countP_congr
  intro s _
  simp only [Function.comp_apply, decide_eq_true_eq]
  rw [Nat.lt_succ_iff]
  exact le_findIdx_iff_node T hT n s i hi

lemma getD_mem_nat (l : List ℕ) (e : ℕ) (he : e < l.length) (d : ℕ) : l.getD e d ∈ l := by
  rw [List.getD_eq_getElem?_getD, List.getElem?_eq_getElem he, Option.getD_some]
  exact List.getElem_mem he

lemma sorted_assigned_prefix (san : List ℕ) (hs : List.Pairwise (· < ·) san) (i : ℕ) :
    ∀ e, e < san.length → (san.getD e 0 ≤ i ↔ e < stimCountBefore san (i + 1)) := by
  induction san with
  | nil => intro e he; simp at he
  | cons x xs ih =>
      rcases List.pairwise_cons.mp hs with ⟨hall, hxs⟩
      intro e he
      unfold stimCountBefore
      rw [List.countP_cons]
      by_cases hxi : x ≤ i
      · have hx1 : (if decide (x < i + 1) = true then 1 else 0) = 1 := by
          simp; omega
        rw [hx1]
        cases e with
        | zero =>
            rw [List.getD_cons_zero]
            exact ⟨fun _ => by omega, fun _ => hxi⟩
        | succ e' =>
            rw [List.getD_cons_succ]
            have h1 := ih hxs e' (by simpa using he)
            unfold stimCountBefore at h1
            rw [h1]
            omega
      · have hzero : List.countP (fun v => decide (v < i + 1)) xs = 0 := by
          rw [List.countP_eq_zero]
          intro a ha
          simp only [decide_eq_true_eq]
          have := hall a ha
          omega
        have hx0 : (if decide (x < i + 1) = true then 1 else 0) = 0 := by
          simp; omega
        rw [hzero, hx0]
        cases e with
        | zero =>
            rw [List.getD_cons_zero]
            constructor
            · intro hle; omega
            · intro hlt; omega
        | succ e' =>
            rw [List.getD_cons_succ]
            have he' : e' < xs.length := by simpa using he
            have hgt := hall _ (getD_mem_nat xs e' he' 0)
            constructor
            · intro hle; omega
            · intro hlt; omega

lemma build_windows_go_sup_le (K : ℕ) (san : List ℕ) :
    ∀ (nodes : List ℕ) (index_inf index_sup j : ℕ), j < nodes.length →
      index_sup ≤ ((build_windows_go K san nodes index_inf index_sup).getD j (0, 0)).2 := by
  intro nodes
  induction nodes with
  | nil => intro _ _ j hj; simp at hj
  | cons nd rest ih =>
      intro inf sup j hj
      by_cases h : nd ∈ san
      · rw [build_windows_go_cons_mem K san nd rest inf sup h]
        cases j with
        | zero => exact Nat.le_succ sup
        | succ j' =>
            rw [List.getD_cons_succ]
            exact le_trans (Nat.le_succ sup) (ih _ _ j' (by simpa using hj))
      · rw [build_windows_go_cons_not_mem K san nd rest inf sup h]
        cases j with
        | zero => exact le_refl sup
        | succ j' =>
            rw [List.getD_cons_succ]
            exact ih _ _ j' (by simpa using hj)

lemma build_windows_go_sup_mono (K : ℕ) (san : List ℕ) :
    ∀ (nodes : List ℕ) (index_inf index_sup i j : ℕ), i ≤ j → j < nodes.length →
      ((build_windows_go K san nodes index_inf index_sup).getD i (0, 0)).2
        ≤ ((build_windows_go K san nodes index_inf index_sup).getD j (0, 0)).2 := by
  intro nodes
  induction nodes with
  | nil => intro _ _ i j hij hj; simp at hj
  | cons nd rest ih =>
      intro inf sup i j hij hj
      by_cases h : nd ∈ san
      · rw [build_windows_go_cons_mem K san nd rest inf sup h]
        cases i with
        | zero =>
            cases j with
            | zero => exact le_refl _
            | succ j' =>
                rw [List.getD_cons_zero, List.getD_cons_succ]
                exact build_windows_go_sup_le K san rest _ _ j' (by simpa using hj)
        | succ i' =>
            cases j with
            | zero => omega
            | succ j' =>
                rw [List.getD_cons_succ, List.getD_cons_succ]
                exact ih _ _ i' j' (by omega) (by simpa using hj)
      · rw [build_windows_go_cons_not_mem K san nd rest inf sup h]
        cases i with
        | zero =>
            cases j with
            | zero => exact le_refl _
            | succ j' =>
                rw [List.getD_cons_zero, List.getD_cons_succ]
                exact build_windows_go_sup_le K san rest _ _ j' (by simpa using hj)
        | succ i' =>
            cases j with
            | zero => omega
            | succ j' =>
                rw [List.getD_cons_succ, List.getD_cons_succ]
                exact ih _ _ i' j' (by omega) (by simpa using hj)

/-- C8 amended: provided each stimulation event is assigned its own distinct
grid node, in increasing order (`stim_at_node` strictly increasing, as exact
grid alignment guarantees), the per-node window `(index_inf, index_sup)` built
by `_build_constraints` satisfies `index_sup = c`, has size
`min(K, c)` (so it holds exactly `min(K, c)` consecutive event indices ending
at `c − 1`, the most recent ones in original order), where `c` is the number of
stimulation events at or before the node and `K` the truncation bound.  Without
the distinctness proviso, events sharing a node are undercounted (see the
counterexample). -/
theorem truncation_window_spec (sum_stim_truncation : Option ℕ) (n_shooting : ℕ)
    (final_time : ℚ) (stim_time : List ℚ) (additional_nodes i : ℕ)
    (hT : 0 ≤ final_time) (hadd : additional_nodes ≤ 1)
    (hsorted : List.Pairwise (· < ·) (stim_at_node stim_time (time_vector final_time n_shooting)))
    (hi : i < n_shooting + additional_nodes) :
    ((build_constraints_windows sum_stim_truncation n_shooting final_time stim_time
          additional_nodes).getD i (0, 0)).2
        = eventsAtOrBeforeNode stim_time final_time n_shooting i
      ∧ ((build_constraints_windows sum_stim_truncation n_shooting final_time stim_time
          additional_nodes).getD i (0, 0)).1
        = eventsAtOrBeforeNode stim_time final_time n_shooting i
          - min (maxStimToKeep sum_stim_truncation)
              (eventsAtOrBeforeNode stim_time final_time n_shooting i)
      ∧ ((build_constraints_windows sum_stim_truncation n_shooting final_time stim_time
            additional_nodes).getD i (0, 0)).2
          - ((build_constraints_windows sum_stim_truncation n_shooting final_time stim_time
            additional_nodes).getD i (0, 0)).1
        = min (maxStimToKeep sum_stim_truncation)
            (eventsAtOrBeforeNode stim_time final_time n_shooting i)
      ∧ ∀ e, e < stim_time.length →
          ((stim_at_node stim_time (time_vector final_time n_shooting)).getD e 0 ≤ i
            ↔ e < eventsAtOrBeforeNode stim_time final_time n_shooting i) := by
  have hnd : (stim_at_node stim_time (time_vector final_time n_shooting)).Nodup :=
    hsorted.imp (fun h => Nat.ne_of_lt h)
  have hi1 : i < n_shooting + 1 := by omega
  have hcount := stimCount_eq_events stim_time final_time hT n_shooting i hi1
  have hw : (build_constraints_windows sum_stim_truncation n_shooting final_time stim_time
        additional_nodes).getD i (0, 0)
      = (eventsAtOrBeforeNode stim_time final_time n_shooting i
          - min (maxStimToKeep sum_stim_truncation)
              (eventsAtOrBeforeNode stim_time final_time n_shooting i),
         eventsAtOrBeforeNode stim_time final_time n_shooting i) := by
    unfold build_constraints_windows
    rw [build_windows_go_getD _ _ hnd _ i hi, hcount]
  rw [hw]
  refine ⟨rfl, rfl, by omega, ?_⟩
  intro e he
  rw [← hcount]
  exact sorted_assigned_prefix _ hsorted i e (by simpa [stim_at_node] using he)

unseal Rat.mul Rat.inv Rat.add Rat.sub Rat.ofScientific in
/-- Witness for the amended C8: stimulations `[0, 1/2]` on the grid `[0, 1/2, 1]`
(`n_shooting = 2`, horizon 1), no truncation, node 1. -/
theorem truncation_window_spec_witness :
    ((0 : ℚ) ≤ 1 ∧ (0 : ℕ) ≤ 1
      ∧ List.Pairwise (· < ·) (stim_at_node [0, 1/2] (time_vector 1 2)) ∧ 1 < 2 + 0)
    ∧ (((build_constraints_windows none 2 1 [0, 1/2] 0).getD 1 (0, 0)).2
          = eventsAtOrBeforeNode [0, 1/2] 1 2 1
        ∧ ((build_constraints_windows none 2 1 [0, 1/2] 0).getD 1 (0, 0)).1
          = eventsAtOrBeforeNode [0, 1/2] 1 2 1
            - min (maxStimToKeep none) (eventsAtOrBeforeNode [0, 1/2] 1 2 1)
        ∧ ((build_constraints_windows none 2 1 [0, 1/2] 0).getD 1 (0, 0)).2
            - ((build_constraints_windows none 2 1 [0, 1/2] 0).getD 1 (0, 0)).1
          = min (maxStimToKeep none) (eventsAtOrBeforeNode [0, 1/2] 1 2 1)
        ∧ ∀ e, e < ([0, 1/2] : List ℚ).length →
            ((stim_at_node [0, 1/2] (time_vector 1 2)).getD e 0 ≤ 1
              ↔ e < eventsAtOrBeforeNode [0, 1/2] 1 2 1)) :=
  ⟨⟨by norm_num, by omega, by decide, by omega⟩,
    truncation_window_spec none 2 1 [0, 1/2] 0 1 (by norm_num) (by omega) (by decide) (by omega)⟩

unseal Rat.mul Rat.inv Rat.add Rat.sub Rat.ofScientific in
/-- Counterexample to C8 as stated: with stimulations `[1/100, 2/100]` and a
grid of 2 steps over horizon 1, both events are assigned to node 1; the
membership test `if i in stim_at_node` increments `index_sup` only once, so
node 1's window holds 1 index although `min(K, 2) = 2` events are at or before
it. -/
theorem truncation_window_shared_node_counterexample :
    ¬ (((build_constraints_windows none 2 1 [1/100, 2/100] 0).getD 1 (0, 0)).2
          - ((build_constraints_windows none 2 1 [1/100, 2/100] 0).getD 1 (0, 0)).1
        = min (maxStimToKeep none) (eventsAtOrBeforeNode [1/100, 2/100] 1 2 1)) := by
  decide

/-- C9: the node-to-stimulus mapping is monotone non-decreasing in the node
index: the upper window bound `index_sup` attached to node `i` never exceeds
the one attached to a later node `j` (so the last assigned stimulation index
`index_sup − 1` is monotone as well); no ordering hypothesis on the
stimulation list is needed. -/
theorem index_sup_monotone (sum_stim_truncation : Option ℕ) (n_shooting : ℕ)
    (final_time : ℚ) (stim_time : List ℚ) (additional_nodes i j : ℕ)
    (hij : i ≤ j) (hj : j < n_shooting + additional_nodes) :
    ((build_constraints_windows sum_stim_truncation n_shooting final_time stim_time
        additional_nodes).getD i (0, 0)).2
      ≤ ((build_constraints_windows sum_stim_truncation n_shooting final_time stim_time
        additional_nodes).getD j (0, 0)).2 := by
  unfold build_constraints_windows
  exact build_windows_go_sup_mono _ _ _ 0 0 i j hij (by simpa using hj)

unseal Rat.mul Rat.inv Rat.add Rat.sub Rat.ofScientific in
/-- Witness for C9 at nodes 0 ≤ 1 of the `[0, 1/2]`, 2-step grid instance. -/
theorem index_sup_monotone_witness :
    ((0 : ℕ) ≤ 1 ∧ 1 < 2 + 0)
    ∧ ((build_constraints_windows none 2 1 [0, 1/2] 0).getD 0 (0, 0)).2
      ≤ ((build_constraints_windows none 2 1 [0, 1/2] 0).getD 1 (0, 0)).2 :=
  ⟨⟨by omega, by omega⟩,
    index_sup_monotone none 2 1 [0, 1/2] 0 0 1 (by omega) (by omega)⟩

end Cocofest
